import Mathlib

/-!
# SSHBrowser: transfer codec, directory listing and navigation history

A shallow embedding of the parts of `src/main.cpp` and `src/old/main.cpp`
that the specification talks about, followed by the properties proved of them.

* `QByteArray` is a list of bytes, each byte a natural number below 256.
* `QString` is a list of characters, `QStringList` a list of such strings.
* The remote side is an explicit argument: the sequence of chunks that
  `ssh_channel_read` delivers, or the function from a command to the
  lines `runCommand` returns for it.
-/

namespace SSHBrowser

/-! ## Data model -/

abbrev QByteArray := List Nat

abbrev QString := List Char

abbrev QStringList := List QString

/-- Every element of the array is a byte. -/
def IsBytes (B : QByteArray) : Prop := ∀ b ∈ B, b < 256

instance (B : QByteArray) : Decidable (IsBytes B) := by
  unfold IsBytes; infer_instance

/-! ## The Base64 codec (`QByteArray::toBase64`, `QByteArray::fromBase64`) -/

/-- Modelled from the spec: the body of `QByteArray::toBase64` is Qt library
code absent from the sources; this is the 64-character table of the
"text-safe encoding" (the standard Base64 alphabet, as Qt 5 defines it). -/
def alphabet_base64 : List Nat :=
  "ABCDEFGHIJKLMNOPQRSTUVWXYZabcdefghijklmnopqrstuvwxyz0123456789+/".toList.map Char.toNat

def alphabet (i : Nat) : Nat := alphabet_base64.getD i 0

/-- The pad character `'='`. -/
def padchar : Nat := 61

/-- The four output characters of one three-byte group of `toBase64`:
`chunk` holds the (up to) three input bytes, `padlen` the number of
missing bytes of the group. -/
def encodeChunk (chunk padlen : Nat) : List Nat :=
  let j := (chunk &&& 0x00fc0000) >>> 18
  let k := (chunk &&& 0x0003f000) >>> 12
  let l := (chunk &&& 0x00000fc0) >>> 6
  let m := chunk &&& 0x0000003f
  [alphabet j, alphabet k,
   if padlen > 1 then padchar else alphabet l,
   if padlen > 0 then padchar else alphabet m]

/-- Modelled from the spec: `QByteArray::toBase64` (default options) is Qt
library code absent from the sources; the encoder of the "text-safe
encoding", three bytes at a time, padded with `'='`. -/
def toBase64 : QByteArray → QByteArray
  | [] => []
  | [a] => encodeChunk ((a % 256) <<< 16) 2
  | [a, b] => encodeChunk (((a % 256) <<< 16) ||| ((b % 256) <<< 8)) 1
  | a :: b :: c :: rest =>
    encodeChunk (((a % 256) <<< 16) ||| ((b % 256) <<< 8) ||| (c % 256)) 0 ++ toBase64 rest

/-- The value of a Base64 character, `none` for a character outside the
alphabet (`d = -1` in the decoder). -/
def decodeDigit (ch : Nat) : Option Nat :=
  if 65 ≤ ch ∧ ch ≤ 90 then some (ch - 65)
  else if 97 ≤ ch ∧ ch ≤ 122 then some (ch - 97 + 26)
  else if 48 ≤ ch ∧ ch ≤ 57 then some (ch - 48 + 52)
  else if ch = 43 then some 62
  else if ch = 47 then some 63
  else none

/-- The loop state of `fromBase64`: the bit buffer, the number of bits in
it and the bytes written so far. -/
structure DecState where
  buf : Nat
  nbits : Nat
  tmp : QByteArray
deriving DecidableEq, Repr

/-- One iteration of the decoding loop: a character outside the alphabet
is skipped, a digit adds six bits and a byte is written once eight bits are
there. `buf` is a 32-bit unsigned integer, the stored byte a `char`. -/
def decodeStep (s : DecState) (ch : Nat) : DecState :=
  match decodeDigit ch with
  | none => s
  | some d =>
    let buf := ((s.buf <<< 6) ||| d) % 2 ^ 32
    let nbits := s.nbits + 6
    if nbits ≥ 8 then
      let nbits := nbits - 8
      { buf := buf &&& ((1 <<< nbits) - 1), nbits := nbits,
        tmp := s.tmp ++ [(buf >>> nbits) % 256] }
    else
      { buf := buf, nbits := nbits, tmp := s.tmp }

/-- Modelled from the spec: `QByteArray::fromBase64` (default options) is Qt
library code absent from the sources; the decoder of the "text-safe
encoding", which passes over every character that is not a Base64 digit. -/
def fromBase64 (base64 : QByteArray) : QByteArray :=
  (base64.foldl decodeStep { buf := 0, nbits := 0, tmp := [] }).tmp

/-! ## Strings (`QString::split`, `QString::trimmed`, `QString::endsWith`) -/

/-- The line feed character. -/
def lineFeed : Char := Char.ofNat 10

/-- The path separator, which is also the directory marker of `ls -p`. -/
def slash : Char := Char.ofNat 47

/-- Modelled from the spec: `QChar::isSpace` is Qt library code absent from
the sources; the test behind "blank/whitespace-only": the space, the controls
U+0009..U+000D, U+0085, U+00A0 and the Unicode separators (categories Zs,
Zl, Zp). -/
def isSpace (c : Char) : Bool :=
  let ucs4 := c.toNat
  ucs4 == 0x20 || (ucs4 ≤ 0x0d && ucs4 ≥ 0x09) ||
    (ucs4 > 127 && (ucs4 == 0x85 || ucs4 == 0xa0 || ucs4 == 0x1680 ||
      (0x2000 ≤ ucs4 && ucs4 ≤ 0x200a) || ucs4 == 0x2028 || ucs4 == 0x2029 ||
      ucs4 == 0x202f || ucs4 == 0x205f || ucs4 == 0x3000))

/-- Modelled from the spec: `QString::trimmed` is Qt library code absent from
the sources; the string without its leading and trailing whitespace. -/
def trimmed (s : QString) : QString :=
  ((s.dropWhile isSpace).reverse.dropWhile isSpace).reverse

/-- The test `s.trimmed().isEmpty()`. -/
def isBlank (s : QString) : Bool := (trimmed s).isEmpty

/-- The test `s.endsWith("/")`. -/
def endsWithSlash (s : QString) : Bool := s.getLast? == some slash

/-- Modelled from the spec: `QString::split` is Qt library code absent from
the sources; the fields of `s` between the occurrences of `sep` ("lines on
line-feed boundaries"), empty fields kept: the empty string has the one
field `""`. -/
def split (sep : Char) : QString → QStringList
  | [] => [[]]
  | c :: cs =>
    if c = sep then [] :: split sep cs
    else
      match split sep cs with
      | [] => [[c]]
      | field :: fields => (c :: field) :: fields

/-! ## The session and its channels (`SSHSession`) -/

/-- What happens on the channel a command is run on: whether
`ssh_channel_new` gave a channel, whether `ssh_channel_open_session` and
`ssh_channel_request_exec` returned `SSH_OK`, and what the successive calls of
`ssh_channel_read` deliver (an empty chunk is a read of zero bytes; after the
last chunk the read returns no bytes). For `runCommand` a chunk is given as the
text `QString::fromUtf8` makes of it. -/
structure Channel (α : Type) where
  allocated : Bool
  opened : Bool
  execOk : Bool
  reads : List (List α)

/-- The session: whether the handle `session` is non-null, and the channel
each command gets. -/
structure SSHSession (α : Type) where
  session : Bool
  channel : QString → Channel α

/-- The calls that release a channel. -/
inductive ChannelOp where
  | sendEof
  | close
  | free
deriving DecidableEq, Repr

/-- The value a channel operation returns, with the release calls it made
on its channel. -/
structure Ran (β : Type) where
  output : β
  ops : List ChannelOp

/-- The chunks the read loop `while ((nbytes = ssh_channel_read(...)) > 0)`
goes through: it stops at the first read of zero bytes. -/
def readLoop {α : Type} : List (List α) → List (List α)
  | [] => []
  | chunk :: rest => if chunk.length > 0 then chunk :: readLoop rest else []

/-- The method `SSHSession::runCommand`: every chunk read is split on line
feeds on its own and its fields are appended to the output. -/
def runCommand (ssh : SSHSession Char) (cmd : QString) : Ran QStringList :=
  if !ssh.session then { output := [], ops := [] }
  else
    let channel := ssh.channel cmd
    if !channel.allocated then { output := [], ops := [] }
    else if !channel.opened then { output := [], ops := [] }
    else if !channel.execOk then { output := [], ops := [.close, .free] }
    else
      { output := (readLoop channel.reads).foldl (fun output chunk => output ++ split lineFeed chunk) [],
        ops := [.sendEof, .close, .free] }

/-- The byte array the read loop of `getFileBase64` has filled when it
ends: the chunks read, appended in the order they came. -/
def captured (channel : Channel Nat) : QByteArray :=
  (readLoop channel.reads).foldl (fun result chunk => result ++ chunk) []

/-- The method `SSHSession::getFileBase64`: the chunks read are appended to
one byte array, which is then decoded. -/
def getFileBase64 (ssh : SSHSession Nat) (path : QString) : Ran QByteArray :=
  if !ssh.session then { output := [], ops := [] }
  else
    let cmd := "base64 \"".toList ++ path ++ "\"".toList
    let channel := ssh.channel cmd
    if !channel.allocated then { output := [], ops := [] }
    else if !channel.opened then { output := [], ops := [] }
    else if !channel.execOk then { output := [], ops := [.close, .free] }
    else { output := fromBase64 (captured channel), ops := [.sendEof, .close, .free] }

/-- The text a remote `base64` tool prints for the Base64 text `t`: lines
of 76 characters (the last one may be shorter), each ended by a line feed. -/
def base64Lines : Nat → QByteArray → QByteArray
  | 0, _ => []
  | _, [] => []
  | fuel + 1, c :: cs => (c :: cs).take 76 ++ [10] ++ base64Lines fuel ((c :: cs).drop 76)

/-- The output of the content-dump command `base64` for a file holding `B`. -/
def base64Output (B : QByteArray) : QByteArray :=
  base64Lines (toBase64 B).length (toBase64 B)

/-! ## The directory view and its history (`FileBrowser`, `src/old/main.cpp`) -/

/-- An item of the list widget: its text and the flag stored under `Qt::UserRole`. -/
structure Item where
  text : QString
  isDir : Bool
deriving DecidableEq, Repr

/-- The state of `FileBrowser` the listing and the navigation work on. The
stacks have their top at the head; `warnings` counts the "Could not list
directory." message boxes shown. -/
structure FileBrowser where
  fileList : List Item
  backStack : List QString
  forwardStack : List QString
  currentPath : QString
  pathEdit : QString
  warnings : Nat
deriving DecidableEq, Repr

/-- The state the constructor leaves. -/
def FileBrowser.initial : FileBrowser :=
  { fileList := [], backStack := [], forwardStack := [], currentPath := "/".toList,
    pathEdit := "/".toList, warnings := 0 }

/-- The command `loadDirectory` and `refreshDirectory` run for `path`. -/
def listCommand (path : QString) : QString := "ls -p \"".toList ++ path ++ "\"".toList

/-- The loop of `loadDirectory` over the output lines: a blank line is
passed over, any other line becomes an item with the line as its text. -/
def loadItems : QStringList → List Item
  | [] => []
  | entry :: rest =>
    if isBlank entry then loadItems rest
    else { text := entry, isDir := endsWithSlash entry } :: loadItems rest

/-- The method `FileBrowser::loadDirectory`. -/
def loadDirectory (ssh : SSHSession Char) (path : QString) (w : FileBrowser) : FileBrowser :=
  let output := (runCommand ssh (listCommand path)).output
  if output.isEmpty then { w with warnings := w.warnings + 1 }
  else
    { w with
      fileList := loadItems output
      backStack := w.currentPath :: w.backStack
      currentPath := path
      pathEdit := path }

/-- The method `FileBrowser::browseToPath`, the path edit holding `typed`. -/
def browseToPath (ssh : SSHSession Char) (typed : QString) (w : FileBrowser) : FileBrowser :=
  loadDirectory ssh (trimmed typed) { w with pathEdit := typed }

/-- The method `FileBrowser::goBack`. -/
def goBack (ssh : SSHSession Char) (w : FileBrowser) : FileBrowser :=
  match w.backStack with
  | [] => w
  | prev :: backStack =>
    loadDirectory ssh prev
      { w with forwardStack := w.currentPath :: w.forwardStack, backStack := backStack }

/-- The method `FileBrowser::goForward`. -/
def goForward (ssh : SSHSession Char) (w : FileBrowser) : FileBrowser :=
  match w.forwardStack with
  | [] => w
  | next :: forwardStack =>
    loadDirectory ssh next
      { w with backStack := w.currentPath :: w.backStack, forwardStack := forwardStack }

/-- The method `FileBrowser::enterDirectory`. -/
def enterDirectory (ssh : SSHSession Char) (item : Item) (w : FileBrowser) : FileBrowser :=
  if !item.isDir then w
  else
    let name := item.text
    let path :=
      if endsWithSlash w.currentPath then w.currentPath ++ name
      else w.currentPath ++ "/".toList ++ name
    loadDirectory ssh path w

/-- The path lists: `runCommand` returns at least one line for its listing command. -/
def Listable (ssh : SSHSession Char) (path : QString) : Prop :=
  (runCommand ssh (listCommand path)).output ≠ []

instance (ssh : SSHSession Char) (path : QString) : Decidable (Listable ssh path) := by
  unfold Listable; infer_instance

/-- The states the browser can get into from the constructor's state. -/
inductive Reachable : FileBrowser → Prop where
  | initial : Reachable FileBrowser.initial
  | browseToPath (ssh : SSHSession Char) (typed : QString) (w : FileBrowser) :
      Reachable w → Reachable (browseToPath ssh typed w)
  | enterDirectory (ssh : SSHSession Char) (item : Item) (w : FileBrowser) :
      Reachable w → item ∈ w.fileList → Reachable (enterDirectory ssh item w)
  | goBack (ssh : SSHSession Char) (w : FileBrowser) : Reachable w → Reachable (goBack ssh w)
  | goForward (ssh : SSHSession Char) (w : FileBrowser) :
      Reachable w → Reachable (goForward ssh w)

/-- The state after the navigations to `paths` in turn, each listed by `ssh`. -/
def navigateAll (ssh : SSHSession Char) (paths : List QString) (w : FileBrowser) : FileBrowser :=
  paths.foldl (fun w path => loadDirectory ssh path w) w

/-- The state after `n` calls of `goBack`. -/
def goBackTimes (ssh : SSHSession Char) : Nat → FileBrowser → FileBrowser
  | 0, w => w
  | n + 1, w => goBackTimes ssh n (goBack ssh w)

/-! ## The icon view (`FileBrowserWidget`, `src/main.cpp`) -/

/-- An item of the model: its text and the full path stored under `Qt::UserRole`. -/
structure StandardItem where
  text : QString
  userRole : QString
deriving DecidableEq, Repr

structure FileBrowserWidget where
  model : List StandardItem
  currentPath : QString
deriving DecidableEq, Repr

/-- The loop of `refreshDirectory` over the lines `runCommand` returned. -/
def refreshItems (path : QString) : QStringList → List StandardItem
  | [] => []
  | file :: rest =>
    if isBlank file then refreshItems path rest
    else { text := file, userRole := path ++ "/".toList ++ file } :: refreshItems path rest

/-- The method `FileBrowserWidget::refreshDirectory`. -/
def refreshDirectory (ssh : SSHSession Char) (path : QString) (_w : FileBrowserWidget) :
    FileBrowserWidget :=
  let files := (runCommand ssh (listCommand path)).output
  { model := refreshItems path files, currentPath := path }

/-- A session whose commands all run on a channel that delivers `reads`. -/
def sessionReading {α : Type} (reads : List (List α)) : SSHSession α :=
  { session := true,
    channel := fun _ => { allocated := true, opened := true, execOk := true, reads := reads } }

/-! ## The session handle (`SSHSession::disconnect`) -/

/-- The field `session` of `SSHSession` with the library calls made on
handles: `session` is the handle held (`none` for `nullptr`), `disconnected`
the handles passed to `ssh_disconnect` and `freed` those passed to `ssh_free`,
in the order of the calls. -/
structure SessionState where
  session : Option Nat
  disconnected : List Nat
  freed : List Nat
deriving DecidableEq, Repr

/-- The state of a session object on which `connectToHost` was never called. -/
def SessionState.neverOpened : SessionState :=
  { session := none, disconnected := [], freed := [] }

/-- The method `SSHSession::disconnect`. -/
def disconnect (s : SessionState) : SessionState :=
  match s.session with
  | some handle =>
    { session := none, disconnected := s.disconnected ++ [handle], freed := s.freed ++ [handle] }
  | none => s

/-- The state after `n` calls of `disconnect`. -/
def disconnectTimes : Nat → SessionState → SessionState
  | 0, s => s
  | n + 1, s => disconnectTimes n (disconnect s)

/-! ## The quick actions (`FileBrowser::addQuickAction`, `removeQuickAction`) -/

/-- What triggering a menu action does: the two entries the constructor
puts in the menu call `addQuickAction` and `removeQuickAction`, an action
made by `addQuickAction` runs the command its closure has captured. -/
inductive Slot where
  | addQuickAction
  | removeQuickAction
  | run (command : QString)
deriving DecidableEq, Repr

/-- A `QAction` of the menu: its text and what it does when triggered. -/
structure Action where
  text : QString
  slot : Slot
deriving DecidableEq, Repr

/-- The registry state: the map `quickActions` (a list of pairs with no key
twice; the code never goes through the map, so its order is not observed) and
the actions of `actionMenu` in menu order. -/
structure Registry where
  quickActions : List (QString × QString)
  actions : List Action
deriving DecidableEq, Repr

/-- The registry the constructor leaves: an empty map and the menu entries
"Add Action" and "Remove Action". -/
def Registry.initial : Registry :=
  { quickActions := [],
    actions := [{ text := "Add Action".toList, slot := Slot.addQuickAction },
                { text := "Remove Action".toList, slot := Slot.removeQuickAction }] }

/-- The assignment `quickActions[name] = command` on the map. -/
def mapAssign (name command : QString) : List (QString × QString) → List (QString × QString)
  | [] => [(name, command)]
  | (key, value) :: rest =>
    if key = name then (key, command) :: rest else (key, value) :: mapAssign name command rest

/-- The call `quickActions.erase(name)` on the map. -/
def mapErase (name : QString) : List (QString × QString) → List (QString × QString)
  | [] => []
  | (key, value) :: rest => if key = name then rest else (key, value) :: mapErase name rest

/-- The method `FileBrowser::addQuickAction`, the two dialogs returning
`name` and `command`. -/
def addQuickAction (name command : QString) (r : Registry) : Registry :=
  if name.isEmpty || command.isEmpty then r
  else
    { quickActions := mapAssign name command r.quickActions,
      actions := r.actions ++ [{ text := name, slot := Slot.run command }] }

/-- The loop of `removeQuickAction` over the menu actions: the first action
whose text is `name` is taken out and the loop is left; `none` when no action
has that text. -/
def removeFirstAction (name : QString) : List Action → Option (List Action)
  | [] => none
  | act :: rest =>
    if act.text = name then some rest
    else
      match removeFirstAction name rest with
      | some remaining => some (act :: remaining)
      | none => none

/-- The method `FileBrowser::removeQuickAction`, the dialog returning `name`. -/
def removeQuickAction (name : QString) (r : Registry) : Registry :=
  match removeFirstAction name r.actions with
  | some remaining => { quickActions := mapErase name r.quickActions, actions := remaining }
  | none => r

/-- The commands that can be run by triggering a menu action whose text is
`name`, in menu order. -/
def invocable (name : QString) (r : Registry) : List QString :=
  r.actions.filterMap (fun act =>
    match act.slot with
    | Slot.run command => if act.text = name then some command else none
    | _ => none)

/-- One call of the registry. -/
inductive RegistryCall where
  | add (name command : QString)
  | remove (name : QString)
deriving DecidableEq, Repr

/-- The registry after the calls in turn, from the constructor's state. -/
def registryAfter (calls : List RegistryCall) : Registry :=
  calls.foldl (fun r call =>
    match call with
    | RegistryCall.add name command => addQuickAction name command r
    | RegistryCall.remove name => removeQuickAction name r) Registry.initial

/-! ## Building commands (`QString::arg`, `uploadFileBase64`, `renameRemoteFile`) -/

/-- The character `%` that starts a place marker. -/
def percent : Char := Char.ofNat 37

/-- The letter `L` a place marker may hold before its number. -/
def localeMark : Char := Char.ofNat 76

/-- The value of a decimal digit, `none` for any other character. -/
def digitValue (c : Char) : Option Nat :=
  if 48 ≤ c.toNat ∧ c.toNat ≤ 57 then some (c.toNat - 48) else none

/-- A piece of a format string: a character of text, or a place marker
with its number and the characters it is written with. -/
inductive ArgPiece where
  | text (c : Char)
  | marker (number : Nat) (source : QString)
deriving DecidableEq, Repr

/-- Where the reading of a format string stands: in text, after a `%`,
after `%L`, or after the first digit of a place marker. -/
inductive ScanState where
  | text
  | percent
  | localeMark
  | digit (value : Nat) (source : QString)
deriving DecidableEq, Repr

/-- Modelled from the spec: `QString::arg` is Qt library code absent from
the sources; this is how it reads a format string: a place marker is `%`, an
optional `L`, and one or two digits; a `%` not followed so is text. -/
def argScan : ScanState → QString → List ArgPiece
  | ScanState.text, [] => []
  | ScanState.text, c :: rest =>
    if c = percent then argScan ScanState.percent rest
    else ArgPiece.text c :: argScan ScanState.text rest
  | ScanState.percent, [] => [ArgPiece.text percent]
  | ScanState.percent, c :: rest =>
    if c = localeMark then argScan ScanState.localeMark rest
    else
      match digitValue c with
      | some v => argScan (ScanState.digit v [percent, c]) rest
      | none =>
        ArgPiece.text percent ::
          (if c = percent then argScan ScanState.percent rest
           else ArgPiece.text c :: argScan ScanState.text rest)
  | ScanState.localeMark, [] => [ArgPiece.text percent, ArgPiece.text localeMark]
  | ScanState.localeMark, c :: rest =>
    match digitValue c with
    | some v => argScan (ScanState.digit v [percent, localeMark, c]) rest
    | none =>
      ArgPiece.text percent :: ArgPiece.text localeMark ::
        (if c = percent then argScan ScanState.percent rest
         else ArgPiece.text c :: argScan ScanState.text rest)
  | ScanState.digit v source, [] => [ArgPiece.marker v source]
  | ScanState.digit v source, c :: rest =>
    match digitValue c with
    | some u => ArgPiece.marker (10 * v + u) (source ++ [c]) :: argScan ScanState.text rest
    | none =>
      ArgPiece.marker v source ::
        (if c = percent then argScan ScanState.percent rest
         else ArgPiece.text c :: argScan ScanState.text rest)

/-- The pieces of a format string. -/
def argPieces (s : QString) : List ArgPiece := argScan ScanState.text s

/-- The numbers of the place markers among the pieces. -/
def markerNumbers : List ArgPiece → List Nat
  | [] => []
  | ArgPiece.text _ :: rest => markerNumbers rest
  | ArgPiece.marker number _ :: rest => number :: markerNumbers rest

/-- The lowest number of a list, `none` for the empty list. -/
def lowest : List Nat → Option Nat
  | [] => none
  | n :: rest =>
    match lowest rest with
    | none => some n
    | some m => some (min n m)

/-- The pieces written out, the markers numbered `number` replaced by `a`. -/
def fillMarker (number : Nat) (a : QString) : List ArgPiece → QString
  | [] => []
  | ArgPiece.text c :: rest => c :: fillMarker number a rest
  | ArgPiece.marker n source :: rest =>
    (if n = number then a else source) ++ fillMarker number a rest

/-- Modelled from the spec: `QString::arg(a)` is Qt library code absent from
the sources; it replaces every occurrence of the lowest-numbered place marker
of the string by `a`, and returns the string as it is when it has no marker. -/
def arg (a : QString) (s : QString) : QString :=
  match lowest (markerNumbers (argPieces s)) with
  | none => s
  | some number => fillMarker number a (argPieces s)

/-- Modelled from the spec: `QString::arg(a1, a2)` is Qt library code absent
from the sources; it replaces in one pass the lowest-numbered place marker of
the string by `a1` and the next lowest by `a2`; the arguments are not read for
markers. -/
def arg2 (a1 a2 : QString) (s : QString) : QString :=
  match lowest (markerNumbers (argPieces s)) with
  | none => s
  | some first =>
    match lowest ((markerNumbers (argPieces s)).filter (fun n => n ≠ first)) with
    | none => fillMarker first a1 (argPieces s)
    | some second =>
      (argPieces s).flatMap (fun piece =>
        match piece with
        | ArgPiece.text c => [c]
        | ArgPiece.marker n source =>
          if n = first then a1 else if n = second then a2 else source)

/-- Modelled from the spec: `QString::fromUtf8` is Qt library code absent
from the sources; on bytes below 128, the only ones `toBase64` makes, the
text has the character of each byte's code. -/
def fromUtf8 (bytes : QByteArray) : QString := bytes.map Char.ofNat

/-- The command `uploadFileBase64` builds from the bytes of the local file
and the remote path. -/
def uploadCommand (data : QByteArray) (remotePath : QString) : QString :=
  let base64Data := toBase64 data
  arg remotePath (arg (fromUtf8 base64Data) "echo '%1' | base64 -d > \"%2\"".toList)

/-- The method `SSHSession::uploadFileBase64`: `file` is the content of the
local file, `none` when it cannot be opened; the result is that of the
`runCommand` call, `none` when there is no call. -/
def uploadFileBase64 (ssh : SSHSession Char) (file : Option QByteArray) (remotePath : QString) :
    Option (Ran QStringList) :=
  match file with
  | none => none
  | some data => some (runCommand ssh (uploadCommand data remotePath))

/-- The command `renameRemoteFile` builds. -/
def renameCommand (oldPath newPath : QString) : QString :=
  arg2 oldPath newPath "mv \"%1\" \"%2\"".toList

/-- The method `SSHSession::renameRemoteFile`. -/
def renameRemoteFile (ssh : SSHSession Char) (oldPath newPath : QString) : Ran QStringList :=
  runCommand ssh (renameCommand oldPath newPath)

/-- The command `getFileBase64` builds. -/
def fetchCommand (path : QString) : QString := "base64 \"".toList ++ path ++ "\"".toList

/-! ## How the remote shell reads a command -/

def doubleQuote : Char := Char.ofNat 34

def singleQuote : Char := Char.ofNat 39

def dollar : Char := Char.ofNat 36

def backtick : Char := Char.ofNat 96

def backslash : Char := Char.ofNat 92

/-- A token of a command line: a word, with the text it stands for once the
quoting is taken off and whether it holds a `$` or a backtick that the shell
expands, or a one-character operator or separator. -/
inductive ShellToken where
  | word (text : QString) (expands : Bool)
  | operator (c : Char)
deriving DecidableEq, Repr

inductive Quoting where
  | bare
  | double
  | single
deriving DecidableEq, Repr

/-- The state of the reading: the quoting in force, whether the character
before was a backslash that quotes the next one, the word being read (`none`
between words) and the tokens read so far. -/
structure LexState where
  quoting : Quoting
  escaped : Bool
  current : Option (QString × Bool)
  tokens : List ShellToken
deriving DecidableEq, Repr

def LexState.start : LexState :=
  { quoting := Quoting.bare, escaped := false, current := none, tokens := [] }

/-- The character `c` is added to the word being read. -/
def pushChar (st : LexState) (c : Char) : LexState :=
  match st.current with
  | none => { st with current := some ([c], false) }
  | some (text, expands) => { st with current := some (text ++ [c], expands) }

/-- A word is being read from here on, if none was. -/
def startWord (st : LexState) : LexState :=
  match st.current with
  | none => { st with current := some ([], false) }
  | some _ => st

/-- The word being read holds an expansion. -/
def markExpands (st : LexState) : LexState :=
  match st.current with
  | none => { st with current := some ([], true) }
  | some (text, _) => { st with current := some (text, true) }

/-- The word being read, if any, is finished. -/
def endWord (st : LexState) : LexState :=
  match st.current with
  | none => st
  | some (text, expands) =>
    { st with current := none, tokens := st.tokens ++ [ShellToken.word text expands] }

/-- The characters that end a word and stand for themselves outside quotes:
the line feed and the operator characters. -/
def isOperator (c : Char) : Bool :=
  c == lineFeed || c == Char.ofNat 59 || c == Char.ofNat 124 || c == Char.ofNat 38 ||
    c == Char.ofNat 60 || c == Char.ofNat 62 || c == Char.ofNat 40 || c == Char.ofNat 41

/-- Modelled from the spec: the remote shell is not part of the sources;
this is the quoting of a POSIX shell, as far as the commands built here need
it: outside quotes a blank ends a word, an operator character is a token, a
backslash quotes the next character; between double quotes only a backslash
before `$`, a backtick, `"`, a backslash or a line feed quotes, and `$` and the
backtick expand; between single quotes every character is text. Comments and
operators of two characters are left out. -/
def lexStep (st : LexState) (c : Char) : LexState :=
  match st.quoting with
  | Quoting.bare =>
    if st.escaped then
      if c = lineFeed then { st with escaped := false }
      else { pushChar st c with escaped := false }
    else if c = backslash then { st with escaped := true }
    else if c = doubleQuote then { startWord st with quoting := Quoting.double }
    else if c = singleQuote then { startWord st with quoting := Quoting.single }
    else if c = Char.ofNat 32 || c = Char.ofNat 9 then endWord st
    else if isOperator c then
      { endWord st with tokens := (endWord st).tokens ++ [ShellToken.operator c] }
    else if c = dollar || c = backtick then markExpands (pushChar st c)
    else pushChar st c
  | Quoting.double =>
    if st.escaped then
      if c = dollar || c = backtick || c = doubleQuote || c = backslash then
        { pushChar st c with escaped := false }
      else if c = lineFeed then { st with escaped := false }
      else { pushChar (pushChar st backslash) c with escaped := false }
    else if c = backslash then { st with escaped := true }
    else if c = doubleQuote then { st with quoting := Quoting.bare }
    else if c = dollar || c = backtick then markExpands (pushChar st c)
    else pushChar st c
  | Quoting.single =>
    if c = singleQuote then { st with quoting := Quoting.bare } else pushChar st c

/-- The tokens the shell reads a command as, `none` when the command ends
inside a quotation or after a quoting backslash. -/
def shellWords (cmd : QString) : Option (List ShellToken) :=
  let st := cmd.foldl lexStep LexState.start
  if st.quoting = Quoting.bare ∧ st.escaped = false then some (endWord st).tokens else none

/-- A token without the text of its word. -/
def tokenShape : ShellToken → ShellToken
  | ShellToken.word _ expands => ShellToken.word [] expands
  | ShellToken.operator c => ShellToken.operator c

/-- The word structure of a command: its tokens without the text of the words. -/
def wordStructure (cmd : QString) : Option (List ShellToken) :=
  (shellWords cmd).map (fun tokens => tokens.map tokenShape)

/-- The path holds none of the characters that are special between double
quotes: `"`, `$`, the backtick and the backslash. -/
def PlainPath (path : QString) : Prop :=
  ∀ c ∈ path, c ≠ doubleQuote ∧ c ≠ dollar ∧ c ≠ backtick ∧ c ≠ backslash

instance (path : QString) : Decidable (PlainPath path) := by
  unfold PlainPath; infer_instance

/-- The Preview branch of `FileBrowserWidget::showContextMenu` on the item
clicked: the full path stored with the item is fetched. -/
def previewItem (ssh : SSHSession Nat) (item : StandardItem) : Ran QByteArray :=
  getFileBase64 ssh item.userRole

/-! # Properties -/

/-! ## Arithmetic of the codec -/

theorem shiftLeft_or_eq (a d i : Nat) (h : d < 2 ^ i) : (a <<< i) ||| d = a * 2 ^ i + d := by
  rw [Nat.shiftLeft_eq, Nat.mul_comm, Nat.mul_add_lt_is_or h]

theorem and_shiftRight_eq (x m i : Nat) : (x &&& m) >>> i = (x >>> i) &&& (m >>> i) := by
  apply Nat.eq_of_testBit_eq
  intro j
  simp

theorem and_mask_shiftRight (x i : Nat) (m : Nat) (n : Nat) (hm : m >>> i = 2 ^ n - 1) :
    (x &&& m) >>> i = x / 2 ^ i % 2 ^ n := by
  rw [and_shiftRight_eq, hm, Nat.and_pow_two_sub_one_eq_mod, Nat.shiftRight_eq_div_pow]

theorem encodeChunk_eq (chunk padlen : Nat) :
    encodeChunk chunk padlen =
      [alphabet (chunk / 2 ^ 18 % 64), alphabet (chunk / 2 ^ 12 % 64),
       if padlen > 1 then padchar else alphabet (chunk / 2 ^ 6 % 64),
       if padlen > 0 then padchar else alphabet (chunk % 64)] := by
  have h1 : (chunk &&& 0x00fc0000) >>> 18 = chunk / 2 ^ 18 % 64 :=
    and_mask_shiftRight chunk 18 0x00fc0000 6 (by decide)
  have h2 : (chunk &&& 0x0003f000) >>> 12 = chunk / 2 ^ 12 % 64 :=
    and_mask_shiftRight chunk 12 0x0003f000 6 (by decide)
  have h3 : (chunk &&& 0x00000fc0) >>> 6 = chunk / 2 ^ 6 % 64 :=
    and_mask_shiftRight chunk 6 0x00000fc0 6 (by decide)
  have h4 : chunk &&& 0x0000003f = chunk % 64 :=
    Nat.and_pow_two_sub_one_eq_mod chunk 6
  simp only [encodeChunk, h1, h2, h3, h4]

theorem decodeDigit_alphabet (j : Nat) (h : j < 64) : decodeDigit (alphabet j) = some j := by
  revert j
  decide

theorem decodeDigit_lt (ch d : Nat) (h : decodeDigit ch = some d) : d < 64 := by
  unfold decodeDigit at h
  split_ifs at h <;> simp at h <;> omega

theorem decodeDigit_padchar : decodeDigit padchar = none := by decide

/-- The decoding step on a digit, in terms of division and remainder. -/
theorem decodeStep_digit (s : DecState) (ch d : Nat) (h : decodeDigit ch = some d) :
    decodeStep s ch =
      if s.nbits + 6 ≥ 8 then
        { buf := (s.buf * 64 + d) % 2 ^ 32 % 2 ^ (s.nbits + 6 - 8), nbits := s.nbits + 6 - 8,
          tmp := s.tmp ++ [(s.buf * 64 + d) % 2 ^ 32 / 2 ^ (s.nbits + 6 - 8) % 256] }
      else { buf := (s.buf * 64 + d) % 2 ^ 32, nbits := s.nbits + 6, tmp := s.tmp } := by
  have hd := decodeDigit_lt ch d h
  have e : (s.buf <<< 6) ||| d = s.buf * 64 + d := shiftLeft_or_eq s.buf d 6 (by simpa using hd)
  simp only [decodeStep, h, e, Nat.one_shiftLeft, Nat.and_pow_two_sub_one_eq_mod,
    Nat.shiftRight_eq_div_pow]

theorem decodeStep_skip (s : DecState) (ch : Nat) (h : decodeDigit ch = none) :
    decodeStep s ch = s := by
  simp only [decodeStep, h]

theorem chunk2_eq (a b : Nat) (hb : b < 256) :
    (a <<< 16) ||| (b <<< 8) = a * 65536 + b * 256 := by
  rw [shiftLeft_or_eq a (b <<< 8) 16 (by rw [Nat.shiftLeft_eq]; omega), Nat.shiftLeft_eq]
  norm_num

theorem chunk3_eq (a b c : Nat) (hb : b < 256) (hc : c < 256) :
    (a <<< 16) ||| (b <<< 8) ||| c = a * 65536 + b * 256 + c := by
  rw [chunk2_eq a b hb]
  have e : a * 65536 + b * 256 = (a * 256 + b) <<< 8 := by
    rw [Nat.shiftLeft_eq]; omega
  rw [e, shiftLeft_or_eq _ c 8 (by omega)]
  omega

/-- Four digits in a row, read from an empty bit buffer, write three bytes
and leave the bit buffer empty. -/
theorem decode_four_digits (c1 c2 c3 c4 j k l m : Nat) (h1 : decodeDigit c1 = some j)
    (h2 : decodeDigit c2 = some k) (h3 : decodeDigit c3 = some l) (h4 : decodeDigit c4 = some m)
    (out : QByteArray) :
    [c1, c2, c3, c4].foldl decodeStep { buf := 0, nbits := 0, tmp := out } =
      { buf := 0, nbits := 0,
        tmp := out ++ [(j * 64 + k) / 16, ((j * 64 + k) % 16 * 64 + l) / 4,
                       ((j * 64 + k) % 16 * 64 + l) % 4 * 64 + m] } := by
  have hj := decodeDigit_lt _ _ h1
  have hk := decodeDigit_lt _ _ h2
  have hl := decodeDigit_lt _ _ h3
  have hm := decodeDigit_lt _ _ h4
  simp only [List.foldl_cons, List.foldl_nil, decodeStep_digit _ _ _ h1,
    decodeStep_digit _ _ _ h2, decodeStep_digit _ _ _ h3, decodeStep_digit _ _ _ h4]
  norm_num
  refine ⟨?_, ?_, ?_, ?_⟩ <;> omega

/-- Three digits and a pad character write two bytes. -/
theorem decode_three_digits (c1 c2 c3 j k l : Nat) (h1 : decodeDigit c1 = some j)
    (h2 : decodeDigit c2 = some k) (h3 : decodeDigit c3 = some l) (out : QByteArray) :
    ([c1, c2, c3, padchar].foldl decodeStep { buf := 0, nbits := 0, tmp := out }).tmp =
      out ++ [(j * 64 + k) / 16, ((j * 64 + k) % 16 * 64 + l) / 4] := by
  have hj := decodeDigit_lt _ _ h1
  have hk := decodeDigit_lt _ _ h2
  have hl := decodeDigit_lt _ _ h3
  simp only [List.foldl_cons, List.foldl_nil, decodeStep_digit _ _ _ h1,
    decodeStep_digit _ _ _ h2, decodeStep_digit _ _ _ h3, decodeStep_skip _ _ decodeDigit_padchar]
  norm_num
  refine ⟨?_, ?_⟩ <;> omega

/-- Two digits and two pad characters write one byte. -/
theorem decode_two_digits (c1 c2 j k : Nat) (h1 : decodeDigit c1 = some j)
    (h2 : decodeDigit c2 = some k) (out : QByteArray) :
    ([c1, c2, padchar, padchar].foldl decodeStep { buf := 0, nbits := 0, tmp := out }).tmp =
      out ++ [(j * 64 + k) / 16] := by
  have hj := decodeDigit_lt _ _ h1
  have hk := decodeDigit_lt _ _ h2
  simp only [List.foldl_cons, List.foldl_nil, decodeStep_digit _ _ _ h1,
    decodeStep_digit _ _ _ h2, decodeStep_skip _ _ decodeDigit_padchar]
  norm_num
  omega

/-- Decoding the four characters of a full group gives back its three
bytes and leaves the bit buffer empty. -/
theorem decode_group3 (a b c : Nat) (ha : a < 256) (hb : b < 256) (hc : c < 256)
    (out : QByteArray) :
    (encodeChunk ((a <<< 16) ||| (b <<< 8) ||| c) 0).foldl decodeStep
        { buf := 0, nbits := 0, tmp := out } =
      { buf := 0, nbits := 0, tmp := out ++ [a, b, c] } := by
  rw [chunk3_eq a b c hb hc, encodeChunk_eq]
  simp only [gt_iff_lt, Nat.reduceLT, reduceIte]
  rw [decode_four_digits _ _ _ _ _ _ _ _
    (decodeDigit_alphabet _ (Nat.mod_lt _ (by decide)))
    (decodeDigit_alphabet _ (Nat.mod_lt _ (by decide)))
    (decodeDigit_alphabet _ (Nat.mod_lt _ (by decide)))
    (decodeDigit_alphabet _ (Nat.mod_lt _ (by decide)))]
  have e1 : ((a * 65536 + b * 256 + c) / 2 ^ 18 % 64 * 64 +
      (a * 65536 + b * 256 + c) / 2 ^ 12 % 64) / 16 = a := by omega
  have e2 : (((a * 65536 + b * 256 + c) / 2 ^ 18 % 64 * 64 +
      (a * 65536 + b * 256 + c) / 2 ^ 12 % 64) % 16 * 64 +
      (a * 65536 + b * 256 + c) / 2 ^ 6 % 64) / 4 = b := by omega
  have e3 : (((a * 65536 + b * 256 + c) / 2 ^ 18 % 64 * 64 +
      (a * 65536 + b * 256 + c) / 2 ^ 12 % 64) % 16 * 64 +
      (a * 65536 + b * 256 + c) / 2 ^ 6 % 64) % 4 * 64 + (a * 65536 + b * 256 + c) % 64 = c := by
    omega
  rw [e1, e2, e3]

/-- Decoding the padded group of two remaining bytes gives back the two bytes. -/
theorem decode_group2 (a b : Nat) (ha : a < 256) (hb : b < 256) (out : QByteArray) :
    ((encodeChunk ((a <<< 16) ||| (b <<< 8)) 1).foldl decodeStep
        { buf := 0, nbits := 0, tmp := out }).tmp = out ++ [a, b] := by
  rw [chunk2_eq a b hb, encodeChunk_eq]
  simp only [gt_iff_lt, Nat.reduceLT, reduceIte]
  rw [decode_three_digits _ _ _ _ _ _
    (decodeDigit_alphabet _ (Nat.mod_lt _ (by decide)))
    (decodeDigit_alphabet _ (Nat.mod_lt _ (by decide)))
    (decodeDigit_alphabet _ (Nat.mod_lt _ (by decide)))]
  have e1 : ((a * 65536 + b * 256) / 2 ^ 18 % 64 * 64 +
      (a * 65536 + b * 256) / 2 ^ 12 % 64) / 16 = a := by omega
  have e2 : (((a * 65536 + b * 256) / 2 ^ 18 % 64 * 64 +
      (a * 65536 + b * 256) / 2 ^ 12 % 64) % 16 * 64 +
      (a * 65536 + b * 256) / 2 ^ 6 % 64) / 4 = b := by omega
  rw [e1, e2]

/-- Decoding the padded group of one remaining byte gives back the byte. -/
theorem decode_group1 (a : Nat) (ha : a < 256) (out : QByteArray) :
    ((encodeChunk (a <<< 16) 2).foldl decodeStep
        { buf := 0, nbits := 0, tmp := out }).tmp = out ++ [a] := by
  rw [Nat.shiftLeft_eq, encodeChunk_eq]
  simp only [gt_iff_lt, Nat.reduceLT, reduceIte]
  rw [decode_two_digits _ _ _ _
    (decodeDigit_alphabet _ (Nat.mod_lt _ (by decide)))
    (decodeDigit_alphabet _ (Nat.mod_lt _ (by decide)))]
  have e1 : ((a * 2 ^ 16) / 2 ^ 18 % 64 * 64 + (a * 2 ^ 16) / 2 ^ 12 % 64) / 16 = a := by omega
  rw [e1]

/-- The decoder started on the encoding of `B` with an empty bit buffer
appends `B` to what it has written. -/
theorem decode_toBase64 (B : QByteArray) (hB : IsBytes B) (out : QByteArray) :
    ((toBase64 B).foldl decodeStep { buf := 0, nbits := 0, tmp := out }).tmp = out ++ B := by
  induction B using toBase64.induct generalizing out with
  | case1 => simp [toBase64]
  | case2 a =>
    have ha : a < 256 := hB a (by simp)
    rw [toBase64, Nat.mod_eq_of_lt ha]
    exact decode_group1 a ha out
  | case3 a b =>
    have ha : a < 256 := hB a (by simp)
    have hb : b < 256 := hB b (by simp)
    rw [toBase64, Nat.mod_eq_of_lt ha, Nat.mod_eq_of_lt hb]
    exact decode_group2 a b ha hb out
  | case4 a b c rest ih =>
    have ha : a < 256 := hB a (by simp)
    have hb : b < 256 := hB b (by simp)
    have hc : c < 256 := hB c (by simp)
    have hr : IsBytes rest := fun x hx => hB x (by simp [hx])
    rw [toBase64, Nat.mod_eq_of_lt ha, Nat.mod_eq_of_lt hb, Nat.mod_eq_of_lt hc,
      List.foldl_append, decode_group3 a b c ha hb hc out, ih hr]
    simp

/-- Characters outside the alphabet do not change what the decoder does. -/
theorem foldl_decodeStep_filter (t : QByteArray) (s : DecState) :
    (t.filter (fun ch => (decodeDigit ch).isSome)).foldl decodeStep s = t.foldl decodeStep s := by
  induction t generalizing s with
  | nil => rfl
  | cons ch t ih =>
    cases h : decodeDigit ch with
    | none => simp [List.filter_cons, h, decodeStep_skip s ch h, ih]
    | some d => simp [List.filter_cons, h, ih]

theorem filter_base64Lines (fuel : Nat) (t : QByteArray) (h : t.length ≤ fuel)
    (p : Nat → Bool) (hp : p 10 = false) :
    (base64Lines fuel t).filter p = t.filter p := by
  induction fuel generalizing t with
  | zero =>
    have : t = [] := List.length_eq_zero.mp (Nat.le_zero.mp h)
    subst this
    rfl
  | succ fuel ih =>
    cases t with
    | nil => rfl
    | cons c cs =>
      have hd : ((c :: cs).drop 76).length ≤ fuel := by
        simp only [List.length_drop, List.length_cons] at h ⊢
        omega
      have h10 : [10].filter p = [] := by simp [List.filter_cons, hp]
      rw [base64Lines, List.filter_append, List.filter_append, ih _ hd, h10, List.append_nil,
        ← List.filter_append, List.take_append_drop]

/-- The line feeds of the remote tool's output do not change what is decoded. -/
theorem fromBase64_base64Lines (fuel : Nat) (t : QByteArray) (h : t.length ≤ fuel) :
    fromBase64 (base64Lines fuel t) = fromBase64 t := by
  unfold fromBase64
  rw [← foldl_decodeStep_filter (base64Lines fuel t), ← foldl_decodeStep_filter t,
    filter_base64Lines fuel t h _ (by decide)]

/-! ## The transfer codec -/

/-- C1: for every byte sequence `B`, the empty and the one-byte sequences
included, the decoder of the download path (`fromBase64`) applied to the text
the encoder of the upload path (`toBase64`) makes of `B` returns exactly `B`. -/
theorem fromBase64_toBase64 (B : QByteArray) (hB : IsBytes B) :
    fromBase64 (toBase64 B) = B := by
  have h := decode_toBase64 B hB []
  simpa [fromBase64] using h

theorem fromBase64_toBase64_witness :
    IsBytes [0, 255, 16, 131] ∧ fromBase64 (toBase64 [0, 255, 16, 131]) = [0, 255, 16, 131] :=
  ⟨by decide, fromBase64_toBase64 [0, 255, 16, 131] (by decide)⟩

/-- C10: for every byte sequence `B`, when the channel steps succeed and the
output captured from the content-dump command is the Base64 text of `B` as a
remote `base64` tool prints it (a line feed after every 76 characters and at
the end), however the reads cut it into chunks, `getFileBase64` returns
exactly `B`. -/
theorem getFileBase64_base64Output (B : QByteArray) (hB : IsBytes B) (ssh : SSHSession Nat)
    (path : QString) (hs : ssh.session = true)
    (ha : (ssh.channel ("base64 \"".toList ++ path ++ "\"".toList)).allocated = true)
    (ho : (ssh.channel ("base64 \"".toList ++ path ++ "\"".toList)).opened = true)
    (he : (ssh.channel ("base64 \"".toList ++ path ++ "\"".toList)).execOk = true)
    (hc : captured (ssh.channel ("base64 \"".toList ++ path ++ "\"".toList)) = base64Output B) :
    (getFileBase64 ssh path).output = B := by
  simp only [getFileBase64, hs, ha, ho, he, hc, Bool.not_true, Bool.false_eq_true, if_false]
  rw [base64Output, fromBase64_base64Lines _ _ (Nat.le_refl _)]
  have h := decode_toBase64 B hB []
  simpa [fromBase64] using h

theorem getFileBase64_base64Output_witness :
    base64Output [72, 101, 108, 108, 111, 44, 32, 87, 111, 114] =
        [83, 71, 86, 115, 98, 71, 56, 115, 73, 70, 100, 118, 99, 103, 61, 61, 10] ∧
      (getFileBase64
          (sessionReading [[83, 71, 86, 115, 98, 71, 56, 115, 73, 70], [100, 118, 99, 103, 61, 61, 10]])
          "/tmp/f".toList).output = [72, 101, 108, 108, 111, 44, 32, 87, 111, 114] :=
  ⟨by decide,
   getFileBase64_base64Output [72, 101, 108, 108, 111, 44, 32, 87, 111, 114] (by decide)
     (sessionReading [[83, 71, 86, 115, 98, 71, 56, 115, 73, 70], [100, 118, 99, 103, 61, 61, 10]])
     "/tmp/f".toList rfl rfl rfl rfl (by decide)⟩

/-! ## The directory listing -/

theorem split_ne_nil (sep : Char) (s : QString) : split sep s ≠ [] := by
  induction s with
  | nil => simp [split]
  | cons c cs ih =>
    rw [split]
    split_ifs
    · simp
    · cases h : split sep cs with
      | nil => exact absurd h ih
      | cons field fields => simp

/-- A string is blank exactly when all its characters are whitespace. -/
theorem isBlank_iff (s : QString) : isBlank s = true ↔ ∀ c ∈ s, isSpace c = true := by
  unfold isBlank trimmed
  rw [List.isEmpty_iff, List.reverse_eq_nil_iff, List.dropWhile_eq_nil_iff]
  constructor
  · intro h
    by_cases hd : s.dropWhile isSpace = []
    · exact List.dropWhile_eq_nil_iff.mp hd
    · have hn := List.head_dropWhile_not isSpace s hd
      have hm : (s.dropWhile isSpace).head hd ∈ (s.dropWhile isSpace).reverse :=
        List.mem_reverse.mpr (List.head_mem hd)
      rw [h _ hm] at hn
      exact absurd hn (by simp)
  · intro h c hc
    rw [List.dropWhile_eq_nil_iff.mpr h] at hc
    simp at hc

/-- The fields of a whitespace-only text are blank. -/
theorem split_blank (sep : Char) (s : QString) (h : ∀ c ∈ s, isSpace c = true) :
    ∀ l ∈ split sep s, isBlank l = true := by
  induction s with
  | nil =>
    intro l hl
    simp only [split, List.mem_singleton] at hl
    subst hl
    rfl
  | cons c cs ih =>
    have hc : isSpace c = true := h c (by simp)
    have ih := ih (fun x hx => h x (by simp [hx]))
    intro l hl
    rw [split] at hl
    split_ifs at hl
    · rcases List.mem_cons.mp hl with e | e
      · subst e; rfl
      · exact ih l e
    · cases hsp : split sep cs with
      | nil => exact absurd hsp (split_ne_nil sep cs)
      | cons field fields =>
        rw [hsp] at hl ih
        simp only at hl
        rcases List.mem_cons.mp hl with e | e
        · subst e
          have hf := (isBlank_iff field).mp (ih field (by simp))
          exact (isBlank_iff _).mpr (fun x hx => by
            rcases List.mem_cons.mp hx with e | e
            · subst e; exact hc
            · exact hf x e)
        · exact ih l (by simp [e])

theorem loadItems_append (xs ys : QStringList) :
    loadItems (xs ++ ys) = loadItems xs ++ loadItems ys := by
  induction xs with
  | nil => rfl
  | cons x xs ih =>
    simp only [List.cons_append, loadItems]
    split_ifs
    · exact ih
    · simp [ih]

theorem loadItems_text (output : QStringList) :
    (loadItems output).map Item.text = output.filter (fun line => !isBlank line) := by
  induction output with
  | nil => rfl
  | cons x xs ih =>
    simp only [loadItems, List.filter_cons]
    cases h : isBlank x <;> simp [ih]

theorem refreshItems_text (path : QString) (files : QStringList) :
    (refreshItems path files).map StandardItem.text =
      files.filter (fun line => !isBlank line) := by
  induction files with
  | nil => rfl
  | cons x xs ih =>
    simp only [refreshItems, List.filter_cons]
    cases h : isBlank x <;> simp [ih]

theorem loadItems_blank (output : QStringList) (h : ∀ l ∈ output, isBlank l = true) :
    loadItems output = [] := by
  induction output with
  | nil => rfl
  | cons x xs ih =>
    simp only [loadItems, h x (by simp), if_true]
    exact ih (fun l hl => h l (by simp [hl]))

/-- What `runCommand` returns when every channel step succeeds. -/
theorem runCommand_ok (ssh : SSHSession Char) (cmd : QString) (hs : ssh.session = true)
    (ha : (ssh.channel cmd).allocated = true) (ho : (ssh.channel cmd).opened = true)
    (he : (ssh.channel cmd).execOk = true) :
    (runCommand ssh cmd).output =
      (readLoop (ssh.channel cmd).reads).foldl
        (fun output chunk => output ++ split lineFeed chunk) [] := by
  simp [runCommand, hs, ha, ho, he]

theorem foldl_split_eq (chunks : List QString) (acc : QStringList) :
    chunks.foldl (fun output chunk => output ++ split lineFeed chunk) acc =
      acc ++ chunks.flatMap (split lineFeed) := by
  induction chunks generalizing acc with
  | nil => simp
  | cons c cs ih => simp [ih, List.flatMap_cons]

/-- C2, as stated, fails: the listing `a.txt`, `sub/` gives the item texts
`a.txt` and `sub/`, the directory marker still in place, not `a.txt` and `sub`. -/
theorem loadDirectory_keeps_marker :
    (loadDirectory (sessionReading ["a.txt\nsub/\n".toList]) "/tmp".toList
        FileBrowser.initial).fileList =
        [{ text := "a.txt".toList, isDir := false }, { text := "sub/".toList, isDir := true }] ∧
      (loadDirectory (sessionReading ["a.txt\nsub/\n".toList]) "/tmp".toList
        FileBrowser.initial).fileList.map Item.text ≠ ["a.txt".toList, "sub".toList] := by
  decide

/-- C2, amended: a line of the listing that ends with the directory marker
is not blank, and every line that is not blank becomes one item, in its
place among the items of the lines before and after it, whose text is the
line unchanged (the marker is kept) and whose directory flag tells whether the
line ends with the marker. -/
theorem loadDirectory_item (ssh : SSHSession Char) (path : QString) (w : FileBrowser)
    (before after : QStringList) (line : QString)
    (h : (runCommand ssh (listCommand path)).output = before ++ line :: after) :
    (endsWithSlash line = true → isBlank line = false) ∧
      (loadDirectory ssh path w).fileList =
        loadItems before ++
          (if isBlank line then [] else [{ text := line, isDir := endsWithSlash line }]) ++
          loadItems after := by
  constructor
  · intro he
    cases hb : isBlank line with
    | false => rfl
    | true =>
      exfalso
      have hall := (isBlank_iff line).mp hb
      unfold endsWithSlash at he
      have hl : line.getLast? = some slash := by simpa using he
      have hm : slash ∈ line := List.mem_of_getLast?_eq_some hl
      have := hall slash hm
      exact absurd this (by decide)
  · have hne : ((runCommand ssh (listCommand path)).output).isEmpty = false := by
      rw [h]; cases before <;> rfl
    simp only [loadDirectory, hne, Bool.false_eq_true, if_false]
    rw [h, loadItems_append]
    simp only [loadItems]
    split_ifs <;> simp

theorem loadDirectory_item_witness :
    (runCommand (sessionReading ["a.txt\nsub/\n".toList]) (listCommand "/tmp".toList)).output =
        ["a.txt".toList] ++ "sub/".toList :: [[]] ∧
      isBlank "sub/".toList = false ∧
      (loadDirectory (sessionReading ["a.txt\nsub/\n".toList]) "/tmp".toList
          FileBrowser.initial).fileList =
        loadItems ["a.txt".toList] ++
          (if isBlank "sub/".toList then []
            else [{ text := "sub/".toList, isDir := endsWithSlash "sub/".toList }]) ++
          loadItems [[]] :=
  ⟨by decide,
   (loadDirectory_item (sessionReading ["a.txt\nsub/\n".toList]) "/tmp".toList
      FileBrowser.initial ["a.txt".toList] [[]] "sub/".toList (by decide)).1 (by decide),
   (loadDirectory_item (sessionReading ["a.txt\nsub/\n".toList]) "/tmp".toList
      FileBrowser.initial ["a.txt".toList] [[]] "sub/".toList (by decide)).2⟩

/-- C7: for every raw listing text delivered as one read, the texts of the
entries `loadDirectory` shows, and of those `refreshDirectory` shows, are the
lines of the text between line feeds that are not blank, in the order they
have in the text. -/
theorem listing_entries_one_read (ssh : SSHSession Char) (path text : QString)
    (w : FileBrowser) (v : FileBrowserWidget) (hs : ssh.session = true)
    (hc : ssh.channel (listCommand path) =
      { allocated := true, opened := true, execOk := true, reads := [text] })
    (ht : text ≠ []) :
    (loadDirectory ssh path w).fileList.map Item.text =
        (split lineFeed text).filter (fun line => !isBlank line) ∧
      (refreshDirectory ssh path v).model.map StandardItem.text =
        (split lineFeed text).filter (fun line => !isBlank line) := by
  have hlen : text.length > 0 := List.length_pos.mpr ht
  have hout : (runCommand ssh (listCommand path)).output = split lineFeed text := by
    rw [runCommand_ok ssh _ hs (by rw [hc]) (by rw [hc]) (by rw [hc]), hc]
    simp [readLoop, hlen]
  constructor
  · have hne : (split lineFeed text).isEmpty = false := by
      cases h : split lineFeed text with
      | nil => exact absurd h (split_ne_nil _ _)
      | cons a l => rfl
    simp only [loadDirectory, hout, hne, Bool.false_eq_true, if_false]
    exact loadItems_text _
  · simp only [refreshDirectory, hout]
    exact refreshItems_text _ _

theorem listing_entries_one_read_witness :
    (loadDirectory (sessionReading ["b\n \n\na/\n".toList]) "/tmp".toList
        FileBrowser.initial).fileList.map Item.text =
        (split lineFeed "b\n \n\na/\n".toList).filter (fun line => !isBlank line) ∧
      (refreshDirectory (sessionReading ["b\n \n\na/\n".toList]) "/tmp".toList
        { model := [], currentPath := [] }).model.map StandardItem.text =
        (split lineFeed "b\n \n\na/\n".toList).filter (fun line => !isBlank line) :=
  listing_entries_one_read (sessionReading ["b\n \n\na/\n".toList]) "/tmp".toList
    "b\n \n\na/\n".toList FileBrowser.initial { model := [], currentPath := [] } rfl rfl
    (by decide)

/-- C8, as stated, fails: when zero bytes are read, `loadDirectory` takes
the "Could not list directory." branch and leaves the entries shown before in
place, while the output of a lone line feed empties the entries without a
warning. -/
theorem loadDirectory_empty_output_warns :
    (loadDirectory (sessionReading []) "/tmp".toList
        (loadDirectory (sessionReading ["a.txt\n".toList]) "/".toList
          FileBrowser.initial)).warnings = 1 ∧
      (loadDirectory (sessionReading []) "/tmp".toList
        (loadDirectory (sessionReading ["a.txt\n".toList]) "/".toList
          FileBrowser.initial)).fileList = [{ text := "a.txt".toList, isDir := false }] ∧
      (loadDirectory (sessionReading ["\n".toList]) "/tmp".toList
        (loadDirectory (sessionReading ["a.txt\n".toList]) "/".toList
          FileBrowser.initial)).warnings = 0 ∧
      (loadDirectory (sessionReading ["\n".toList]) "/tmp".toList
        (loadDirectory (sessionReading ["a.txt\n".toList]) "/".toList
          FileBrowser.initial)).fileList = [] := by
  decide

/-- C8, amended: with the channel steps succeeding, a raw listing output of
at least one byte that holds nothing but whitespace gives an empty entry
sequence without the failure branch being taken, and the navigation is
recorded; when zero bytes are read the failure branch is taken: one warning
more, and nothing else of the state changes. -/
theorem loadDirectory_blank_output (ssh : SSHSession Char) (path : QString) (w : FileBrowser)
    (hs : ssh.session = true) (ha : (ssh.channel (listCommand path)).allocated = true)
    (ho : (ssh.channel (listCommand path)).opened = true)
    (he : (ssh.channel (listCommand path)).execOk = true) :
    (readLoop (ssh.channel (listCommand path)).reads = [] →
        loadDirectory ssh path w = { w with warnings := w.warnings + 1 }) ∧
      (readLoop (ssh.channel (listCommand path)).reads ≠ [] →
        (∀ chunk ∈ readLoop (ssh.channel (listCommand path)).reads, ∀ c ∈ chunk,
          isSpace c = true) →
        loadDirectory ssh path w =
          { w with
            fileList := []
            backStack := w.currentPath :: w.backStack
            currentPath := path
            pathEdit := path }) := by
  have hout := runCommand_ok ssh (listCommand path) hs ha ho he
  rw [foldl_split_eq, List.nil_append] at hout
  constructor
  · intro hr
    rw [hr] at hout
    simp [loadDirectory, hout]
  · intro hr hsp
    have hne : ((runCommand ssh (listCommand path)).output).isEmpty = false := by
      rw [hout]
      cases hrl : readLoop (ssh.channel (listCommand path)).reads with
      | nil => exact absurd hrl hr
      | cons chunk rest =>
        rw [List.flatMap_cons]
        cases hsplit : split lineFeed chunk with
        | nil => exact absurd hsplit (split_ne_nil _ _)
        | cons a l => rfl
    have hblank : ∀ l ∈ (runCommand ssh (listCommand path)).output, isBlank l = true := by
      intro l hl
      rw [hout, List.mem_flatMap] at hl
      obtain ⟨chunk, hchunk, hl⟩ := hl
      exact split_blank lineFeed chunk (hsp chunk hchunk) l hl
    simp only [loadDirectory, hne, Bool.false_eq_true, if_false, loadItems_blank _ hblank]

theorem loadDirectory_blank_output_witness :
    readLoop ((sessionReading [" \n".toList, "\n".toList]).channel
        (listCommand "/tmp".toList)).reads ≠ [] ∧
      loadDirectory (sessionReading [" \n".toList, "\n".toList]) "/tmp".toList
          FileBrowser.initial =
        { FileBrowser.initial with
          fileList := []
          backStack := FileBrowser.initial.currentPath :: FileBrowser.initial.backStack
          currentPath := "/tmp".toList
          pathEdit := "/tmp".toList } :=
  ⟨by decide,
   (loadDirectory_blank_output (sessionReading [" \n".toList, "\n".toList]) "/tmp".toList
      FileBrowser.initial rfl rfl rfl rfl).2 (by decide) (by decide)⟩

/-- What `loadDirectory` does to the state when the path lists. -/
theorem loadDirectory_listable (ssh : SSHSession Char) (path : QString) (w : FileBrowser)
    (h : Listable ssh path) :
    loadDirectory ssh path w =
      { w with
        fileList := loadItems (runCommand ssh (listCommand path)).output
        backStack := w.currentPath :: w.backStack
        currentPath := path
        pathEdit := path } := by
  have hne : ((runCommand ssh (listCommand path)).output).isEmpty = false := by
    cases ho : (runCommand ssh (listCommand path)).output with
    | nil => exact absurd ho h
    | cons a l => rfl
  simp only [loadDirectory, hne, Bool.false_eq_true, if_false]

/-- C3, as stated, fails: in the state reached by browsing to `/a` and
going back, a fresh navigation to `/b` leaves `/a` on the forward stack, and a
`goForward` right after it leaves `/b` for `/a`. -/
theorem forwardStack_survives_navigation :
    Reachable (goBack (sessionReading ["x\n".toList])
        (browseToPath (sessionReading ["x\n".toList]) "/a".toList FileBrowser.initial)) ∧
      Listable (sessionReading ["x\n".toList]) "/b".toList ∧
      (browseToPath (sessionReading ["x\n".toList]) "/b".toList
        (goBack (sessionReading ["x\n".toList])
          (browseToPath (sessionReading ["x\n".toList]) "/a".toList
            FileBrowser.initial))).forwardStack = ["/a".toList] ∧
      (goForward (sessionReading ["x\n".toList])
        (browseToPath (sessionReading ["x\n".toList]) "/b".toList
          (goBack (sessionReading ["x\n".toList])
            (browseToPath (sessionReading ["x\n".toList]) "/a".toList
              FileBrowser.initial)))).currentPath = "/a".toList :=
  ⟨Reachable.goBack _ _ (Reachable.browseToPath _ _ _ Reachable.initial), by decide, by decide,
    by decide⟩

/-- C3, amended: in every history state, after a navigation to a path `P`
that lists, `currentPath` is `P`, the previous `currentPath` is on top of
`backStack` and `forwardStack` is what it was before (it is not cleared);
so when `forwardStack` was empty before the navigation, a `goForward` right
after it changes nothing. -/
theorem loadDirectory_history (ssh next : SSHSession Char) (P : QString) (w : FileBrowser)
    (h : Listable ssh P) :
    (loadDirectory ssh P w).currentPath = P ∧
      (loadDirectory ssh P w).backStack = w.currentPath :: w.backStack ∧
      (loadDirectory ssh P w).forwardStack = w.forwardStack ∧
      (w.forwardStack = [] → goForward next (loadDirectory ssh P w) = loadDirectory ssh P w) := by
  rw [loadDirectory_listable ssh P w h]
  refine ⟨rfl, rfl, rfl, ?_⟩
  intro hf
  simp only [goForward, hf]

theorem loadDirectory_history_witness :
    Listable (sessionReading ["x\n".toList]) "/a".toList ∧
      (loadDirectory (sessionReading ["x\n".toList]) "/a".toList FileBrowser.initial).currentPath =
        "/a".toList ∧
      (loadDirectory (sessionReading ["x\n".toList]) "/a".toList FileBrowser.initial).backStack =
        ["/".toList] ∧
      (loadDirectory (sessionReading ["x\n".toList]) "/a".toList
        FileBrowser.initial).forwardStack = [] ∧
      goForward (sessionReading ["y\n".toList])
          (loadDirectory (sessionReading ["x\n".toList]) "/a".toList FileBrowser.initial) =
        loadDirectory (sessionReading ["x\n".toList]) "/a".toList FileBrowser.initial :=
  ⟨by decide,
   (loadDirectory_history (sessionReading ["x\n".toList]) (sessionReading ["y\n".toList])
      "/a".toList FileBrowser.initial (by decide)).1,
   (loadDirectory_history (sessionReading ["x\n".toList]) (sessionReading ["y\n".toList])
      "/a".toList FileBrowser.initial (by decide)).2.1,
   (loadDirectory_history (sessionReading ["x\n".toList]) (sessionReading ["y\n".toList])
      "/a".toList FileBrowser.initial (by decide)).2.2.1,
   (loadDirectory_history (sessionReading ["x\n".toList]) (sessionReading ["y\n".toList])
      "/a".toList FileBrowser.initial (by decide)).2.2.2 rfl⟩

/-- What `goBack` does when the back stack has a top and the top lists:
the top becomes current and the old current path goes on the forward stack
and, through `loadDirectory`, on the back stack in place of the popped top. -/
theorem goBack_listable (ssh : SSHSession Char) (w : FileBrowser) (prev : QString)
    (rest : List QString) (hb : w.backStack = prev :: rest) (h : Listable ssh prev) :
    (goBack ssh w).currentPath = prev ∧
      (goBack ssh w).forwardStack = w.currentPath :: w.forwardStack ∧
      (goBack ssh w).backStack = w.currentPath :: rest := by
  simp only [goBack, hb]
  rw [loadDirectory_listable ssh prev _ h]
  exact ⟨rfl, rfl, rfl⟩

/-- C4 fails on the code: from the state reached by navigating to `/a` and
then to `/b` (back stack `/a`, `/`), `goBack` makes `/a` current and pushes
`/b` on the forward stack, but the back stack is `/b`, `/`: the `loadDirectory`
that `goBack` calls has pushed the old current path where `/a` was popped, so
the stack is not one element shorter. -/
theorem goBack_backStack_not_shorter :
    (loadDirectory (sessionReading ["x\n".toList]) "/b".toList
        (loadDirectory (sessionReading ["x\n".toList]) "/a".toList
          FileBrowser.initial)).backStack = ["/a".toList, "/".toList] ∧
      (goBack (sessionReading ["x\n".toList])
        (loadDirectory (sessionReading ["x\n".toList]) "/b".toList
          (loadDirectory (sessionReading ["x\n".toList]) "/a".toList
            FileBrowser.initial))).currentPath = "/a".toList ∧
      (goBack (sessionReading ["x\n".toList])
        (loadDirectory (sessionReading ["x\n".toList]) "/b".toList
          (loadDirectory (sessionReading ["x\n".toList]) "/a".toList
            FileBrowser.initial))).forwardStack = ["/b".toList] ∧
      (goBack (sessionReading ["x\n".toList])
        (loadDirectory (sessionReading ["x\n".toList]) "/b".toList
          (loadDirectory (sessionReading ["x\n".toList]) "/a".toList
            FileBrowser.initial))).backStack = ["/b".toList, "/".toList] := by
  decide

/-- C5 fails on the code: after the one navigation to `/a` from the
initial state, the first `goBack` returns to `/` and leaves `/a` on the back
stack, so the second `goBack` does not find the stack empty and moves on to
`/a`. -/
theorem goBack_never_runs_out :
    (goBackTimes (sessionReading ["x\n".toList]) 1
        (navigateAll (sessionReading ["x\n".toList]) ["/a".toList]
          FileBrowser.initial)).currentPath = "/".toList ∧
      (goBackTimes (sessionReading ["x\n".toList]) 1
        (navigateAll (sessionReading ["x\n".toList]) ["/a".toList]
          FileBrowser.initial)).backStack = ["/a".toList] ∧
      (goBackTimes (sessionReading ["x\n".toList]) 2
        (navigateAll (sessionReading ["x\n".toList]) ["/a".toList]
          FileBrowser.initial)).currentPath = "/a".toList := by
  decide

/-- C6: in every history state, for all paths `a` and `b` that list when
they are loaded, navigating to `a`, then to `b`, then calling `goBack` leaves
`currentPath` at `a` with a non-empty `forwardStack`, and a `goForward` after
that leaves `currentPath` at `b`. -/
theorem back_then_forward (s1 s2 s3 s4 : SSHSession Char) (a b : QString) (w : FileBrowser)
    (h1 : Listable s1 a) (h2 : Listable s2 b) (h3 : Listable s3 a) (h4 : Listable s4 b) :
    (goBack s3 (loadDirectory s2 b (loadDirectory s1 a w))).currentPath = a ∧
      (goBack s3 (loadDirectory s2 b (loadDirectory s1 a w))).forwardStack ≠ [] ∧
      (goForward s4 (goBack s3 (loadDirectory s2 b (loadDirectory s1 a w)))).currentPath = b := by
  rw [loadDirectory_listable s1 a w h1, loadDirectory_listable s2 b _ h2]
  simp only [goBack]
  rw [loadDirectory_listable s3 a _ h3]
  simp only [goForward]
  rw [loadDirectory_listable s4 b _ h4]
  simp

theorem back_then_forward_witness :
    Listable (sessionReading ["x\n".toList]) "/a".toList ∧
      Listable (sessionReading ["x\n".toList]) "/b".toList ∧
      (goBack (sessionReading ["x\n".toList])
        (loadDirectory (sessionReading ["x\n".toList]) "/b".toList
          (loadDirectory (sessionReading ["x\n".toList]) "/a".toList
            FileBrowser.initial))).currentPath = "/a".toList ∧
      (goBack (sessionReading ["x\n".toList])
        (loadDirectory (sessionReading ["x\n".toList]) "/b".toList
          (loadDirectory (sessionReading ["x\n".toList]) "/a".toList
            FileBrowser.initial))).forwardStack ≠ [] ∧
      (goForward (sessionReading ["x\n".toList])
        (goBack (sessionReading ["x\n".toList])
          (loadDirectory (sessionReading ["x\n".toList]) "/b".toList
            (loadDirectory (sessionReading ["x\n".toList]) "/a".toList
              FileBrowser.initial)))).currentPath = "/b".toList :=
  ⟨by decide, by decide,
   back_then_forward (sessionReading ["x\n".toList]) (sessionReading ["x\n".toList])
     (sessionReading ["x\n".toList]) (sessionReading ["x\n".toList]) "/a".toList "/b".toList
     FileBrowser.initial (by decide) (by decide) (by decide) (by decide)⟩

/-! ## Decoding what was captured, and the channel's release -/

/-- C11, as stated, fails: the captured outputs `SG!k` (a character outside
the alphabet) and `S=Gk` (a pad character in the middle) are not valid Base64
texts, yet `getFileBase64` returns the two bytes `Hi` for each, the bytes it
gets by passing over the invalid character. -/
theorem getFileBase64_skips_invalid :
    (getFileBase64 (sessionReading [[83, 71, 33, 107]]) "/tmp/f".toList).output = [72, 105] ∧
      (getFileBase64 (sessionReading [[83, 61, 71, 107]]) "/tmp/f".toList).output = [72, 105] := by
  decide

/-- C11, amended: for every captured output, valid Base64 text or not,
`getFileBase64` reports no failure and returns decoded bytes: every byte that
is not a Base64 digit (a pad character included, wherever it stands) is
passed over, so the result is the decoding of the captured output with those
bytes taken out. -/
theorem getFileBase64_lenient (ssh : SSHSession Nat) (path : QString) (hs : ssh.session = true)
    (ha : (ssh.channel ("base64 \"".toList ++ path ++ "\"".toList)).allocated = true)
    (ho : (ssh.channel ("base64 \"".toList ++ path ++ "\"".toList)).opened = true)
    (he : (ssh.channel ("base64 \"".toList ++ path ++ "\"".toList)).execOk = true) :
    (getFileBase64 ssh path).output =
      fromBase64 ((captured (ssh.channel ("base64 \"".toList ++ path ++ "\"".toList))).filter
        (fun ch => (decodeDigit ch).isSome)) := by
  simp only [getFileBase64, hs, ha, ho, he, Bool.not_true, Bool.false_eq_true, if_false]
  unfold fromBase64
  rw [foldl_decodeStep_filter]

theorem getFileBase64_lenient_witness :
    (captured ((sessionReading [[83, 71, 33], [107, 10]]).channel
        ("base64 \"".toList ++ "/tmp/f".toList ++ "\"".toList))).filter
        (fun ch => (decodeDigit ch).isSome) = [83, 71, 107] ∧
      (getFileBase64 (sessionReading [[83, 71, 33], [107, 10]]) "/tmp/f".toList).output =
        fromBase64 ((captured ((sessionReading [[83, 71, 33], [107, 10]]).channel
          ("base64 \"".toList ++ "/tmp/f".toList ++ "\"".toList))).filter
          (fun ch => (decodeDigit ch).isSome)) :=
  ⟨by decide,
   getFileBase64_lenient (sessionReading [[83, 71, 33], [107, 10]]) "/tmp/f".toList rfl rfl rfl
     rfl⟩

/-- C12 fails on the code: when the output `a.txt`, `sub/` arrives in the
two reads `a.txt\nsu` and `b/\n`, `runCommand` returns the lines `a.txt`,
`su`, `b/` and an empty line, the line `sub/` cut in two at the chunk boundary,
while the concatenation of the chunks splits into `a.txt`, `sub/` and an empty
line; and the reads `a\n`, `b\n` give an extra empty line at the boundary. -/
theorem runCommand_splits_each_chunk :
    (runCommand (sessionReading ["a.txt\nsu".toList, "b/\n".toList]) (listCommand "/tmp".toList)).output =
        ["a.txt".toList, "su".toList, "b/".toList, []] ∧
      split lineFeed ("a.txt\nsu".toList ++ "b/\n".toList) = ["a.txt".toList, "sub/".toList, []] ∧
      (runCommand (sessionReading ["a\n".toList, "b\n".toList]) (listCommand "/tmp".toList)).output =
        ["a".toList, [], "b".toList, []] ∧
      split lineFeed ("a\n".toList ++ "b\n".toList) = ["a".toList, "b".toList, []] := by
  decide

/-- C13 fails on the code: when the channel is allocated and
`ssh_channel_open_session` fails, `runCommand` and `getFileBase64` return
without any release call on the channel, while on a failed exec request they
close and free it. -/
theorem open_failure_leaks_channel :
    (runCommand
        { session := true,
          channel := fun _ => { allocated := true, opened := false, execOk := true, reads := [] } }
        (listCommand "/tmp".toList)).ops = [] ∧
      (getFileBase64
        { session := true,
          channel := fun _ => { allocated := true, opened := false, execOk := true, reads := [] } }
        "/tmp/f".toList).ops = [] ∧
      (runCommand
        { session := true,
          channel := fun _ => { allocated := true, opened := true, execOk := false, reads := [] } }
        (listCommand "/tmp".toList)).ops = [ChannelOp.close, ChannelOp.free] := by
  decide

/-- With the session open and the channel allocated, `runCommand` closes
and frees the channel exactly when `ssh_channel_open_session` succeeded. -/
theorem runCommand_releases_iff (ssh : SSHSession Char) (cmd : QString)
    (hs : ssh.session = true) (ha : (ssh.channel cmd).allocated = true) :
    (ChannelOp.close ∈ (runCommand ssh cmd).ops ∧ ChannelOp.free ∈ (runCommand ssh cmd).ops) ↔
      (ssh.channel cmd).opened = true := by
  cases ho : (ssh.channel cmd).opened <;> cases he : (ssh.channel cmd).execOk <;>
    simp [runCommand, hs, ha, ho, he]

/-! ## Disconnecting -/

theorem disconnect_session (s : SessionState) : (disconnect s).session = none := by
  unfold disconnect
  cases h : s.session <;> simp [h]

theorem disconnect_of_none (s : SessionState) (h : s.session = none) : disconnect s = s := by
  simp [disconnect, h]

theorem disconnectTimes_disconnect (n : Nat) (s : SessionState) :
    disconnectTimes n (disconnect s) = disconnect s := by
  induction n with
  | zero => rfl
  | succ n ih =>
    rw [disconnectTimes, disconnect_of_none _ (disconnect_session s), ih]

theorem disconnect_freed_length (s : SessionState) :
    (disconnect s).freed.length ≤ s.freed.length + 1 := by
  unfold disconnect
  cases h : s.session <;> simp [h]

/-- C14: `disconnect` is idempotent on the session state: for every state
`s`, a second call changes nothing, `n` calls in a row pass at most one
handle more to `ssh_free` (and none when the handle was already null), and
on a session with a null handle the state is unchanged, nothing released. -/
theorem disconnect_idempotent (s : SessionState) (n : Nat) (disconnected freed : List Nat) :
    disconnect (disconnect s) = disconnect s ∧
      (disconnectTimes n s).freed.length ≤ s.freed.length + 1 ∧
      (disconnectTimes (n + 1) s).freed = (disconnect s).freed ∧
      disconnect { session := none, disconnected := disconnected, freed := freed } =
        { session := none, disconnected := disconnected, freed := freed } ∧
      disconnect SessionState.neverOpened = SessionState.neverOpened := by
  refine ⟨disconnect_of_none _ (disconnect_session s), ?_, ?_, rfl, rfl⟩
  · cases n with
    | zero => exact Nat.le_succ _
    | succ n =>
      rw [disconnectTimes, disconnectTimes_disconnect]
      exact disconnect_freed_length s
  · rw [disconnectTimes, disconnectTimes_disconnect]

/-! ## The quick actions -/

/-- What two registrations of one name leave: the map holds the second
command, the menu holds an action for each of the two. -/
theorem addQuickAction_twice (name c1 c2 : QString) (r : Registry) (hn : name ≠ [])
    (h1 : c1 ≠ []) (h2 : c2 ≠ []) :
    (addQuickAction name c2 (addQuickAction name c1 r)).actions =
      r.actions ++ [{ text := name, slot := Slot.run c1 }, { text := name, slot := Slot.run c2 }] := by
  have en : name.isEmpty = false := by cases name <;> simp_all
  have e1 : c1.isEmpty = false := by cases c1 <;> simp_all
  have e2 : c2.isEmpty = false := by cases c2 <;> simp_all
  simp [addQuickAction, en, e1, e2]

/-- C15 fails on the code: after `addQuickAction` registers `x` with
`date` and then with `uptime`, the map holds `uptime` for `x`, but the menu
holds two actions with the text `x` and the first still runs `date`. -/
theorem addQuickAction_keeps_old_action :
    (addQuickAction "x".toList "uptime".toList
        (addQuickAction "x".toList "date".toList Registry.initial)).quickActions =
        [("x".toList, "uptime".toList)] ∧
      invocable "x".toList
        (addQuickAction "x".toList "uptime".toList
          (addQuickAction "x".toList "date".toList Registry.initial)) =
        ["date".toList, "uptime".toList] := by
  decide

/-- C16 fails on the code: in the state reached by registering `x` twice,
`removeQuickAction` for `x` takes out the first action only and erases the
map entry: the name is gone from the map, but an action with the text `x` is
still in the menu and runs `uptime`. -/
theorem removeQuickAction_leaves_duplicate :
    (registryAfter [RegistryCall.add "x".toList "date".toList,
        RegistryCall.add "x".toList "uptime".toList,
        RegistryCall.remove "x".toList]).quickActions = [] ∧
      invocable "x".toList
        (registryAfter [RegistryCall.add "x".toList "date".toList,
          RegistryCall.add "x".toList "uptime".toList,
          RegistryCall.remove "x".toList]) = ["uptime".toList] ∧
      (removeQuickAction "Add Action".toList Registry.initial).actions =
        [{ text := "Remove Action".toList, slot := Slot.removeQuickAction }] := by
  decide

/-! ## The commands built -/

theorem argScan_text_append (l s : QString) (h : percent ∉ l) :
    argScan ScanState.text (l ++ s) = l.map ArgPiece.text ++ argScan ScanState.text s := by
  induction l with
  | nil => rfl
  | cons c l ih =>
    have hc : c ≠ percent := fun e => h (by simp [e])
    have hl : percent ∉ l := fun e => h (by simp [e])
    simp only [List.cons_append, argScan, hc, if_false, List.map_cons]
    exact congrArg _ (ih hl)

theorem markerNumbers_append (xs ys : List ArgPiece) :
    markerNumbers (xs ++ ys) = markerNumbers xs ++ markerNumbers ys := by
  induction xs with
  | nil => rfl
  | cons x xs ih => cases x <;> simp [markerNumbers, ih]

theorem markerNumbers_text (l : QString) : markerNumbers (l.map ArgPiece.text) = [] := by
  induction l with
  | nil => rfl
  | cons c l ih => simp [markerNumbers, ih]

theorem fillMarker_append (number : Nat) (a : QString) (xs ys : List ArgPiece) :
    fillMarker number a (xs ++ ys) = fillMarker number a xs ++ fillMarker number a ys := by
  induction xs with
  | nil => rfl
  | cons x xs ih => cases x <;> simp [fillMarker, ih]

theorem fillMarker_text (number : Nat) (a : QString) (l : QString) :
    fillMarker number a (l.map ArgPiece.text) = l := by
  induction l with
  | nil => rfl
  | cons c l ih => simp [fillMarker, ih]

/-- The first substitution of `uploadFileBase64`: the marker `%1` takes the payload. -/
theorem arg_payload (E : QString) :
    arg E "echo '%1' | base64 -d > \"%2\"".toList =
      "echo '".toList ++ E ++ "' | base64 -d > \"%2\"".toList := by
  simp [arg, argPieces, argScan, lowest, markerNumbers, fillMarker, percent, localeMark,
    digitValue]

/-- The second substitution: with no `%` in the payload, the marker `%2`
takes the remote path. -/
theorem arg_remotePath (E r : QString) (h : percent ∉ E) :
    arg r ("echo '".toList ++ E ++ "' | base64 -d > \"%2\"".toList) =
      "echo '".toList ++ E ++ "' | base64 -d > \"".toList ++ r ++ "\"".toList := by
  have hp : percent ∉ "echo '".toList ++ E := by
    intro hm
    rcases List.mem_append.mp hm with e | e
    · revert e; decide
    · exact h e
  have hs : argScan ScanState.text "' | base64 -d > \"%2\"".toList =
      "' | base64 -d > \"".toList.map ArgPiece.text ++
        [ArgPiece.marker 2 "%2".toList, ArgPiece.text (Char.ofNat 34)] := by
    decide
  unfold arg argPieces
  rw [argScan_text_append _ _ hp, hs, markerNumbers_append, markerNumbers_text,
    markerNumbers_append, markerNumbers_text]
  simp [markerNumbers, lowest, fillMarker_append, fillMarker_text, fillMarker]

theorem alphabet_mem (j : Nat) (h : j < 64) : alphabet j ∈ alphabet_base64 := by
  revert j
  decide

theorem encodeChunk_chars (chunk padlen : Nat) :
    ∀ b ∈ encodeChunk chunk padlen, b ∈ alphabet_base64 ∨ b = padchar := by
  rw [encodeChunk_eq]
  intro b hb
  have m1 := alphabet_mem (chunk / 2 ^ 18 % 64) (Nat.mod_lt _ (by decide))
  have m2 := alphabet_mem (chunk / 2 ^ 12 % 64) (Nat.mod_lt _ (by decide))
  have m3 := alphabet_mem (chunk / 2 ^ 6 % 64) (Nat.mod_lt _ (by decide))
  have m4 := alphabet_mem (chunk % 64) (Nat.mod_lt _ (by decide))
  simp only [List.mem_cons, List.mem_singleton, List.not_mem_nil, or_false] at hb
  rcases hb with e | e | e | e
  · subst e; exact Or.inl m1
  · subst e; exact Or.inl m2
  · subst e; split_ifs
    · exact Or.inr rfl
    · exact Or.inl m3
  · subst e; split_ifs
    · exact Or.inr rfl
    · exact Or.inl m4

/-- Every character `toBase64` writes is one of the 64 of the alphabet or the pad. -/
theorem toBase64_chars (B : QByteArray) :
    ∀ b ∈ toBase64 B, b ∈ alphabet_base64 ∨ b = padchar := by
  induction B using toBase64.induct with
  | case1 => simp [toBase64]
  | case2 a => rw [toBase64]; exact encodeChunk_chars _ _
  | case3 a b => rw [toBase64]; exact encodeChunk_chars _ _
  | case4 a b c rest ih =>
    rw [toBase64]
    intro x hx
    rcases List.mem_append.mp hx with e | e
    · exact encodeChunk_chars _ _ x e
    · exact ih x e

theorem base64_char_plain (b : Nat) (h : b ∈ alphabet_base64 ∨ b = padchar) :
    Char.ofNat b ≠ percent ∧ Char.ofNat b ≠ Char.ofNat 39 := by
  have hall : ∀ x ∈ padchar :: alphabet_base64,
      Char.ofNat x ≠ percent ∧ Char.ofNat x ≠ Char.ofNat 39 := by decide
  rcases h with e | e
  · exact hall b (List.mem_cons_of_mem _ e)
  · exact hall b (by rw [e]; exact List.mem_cons_self _ _)

/-- C18: for every local byte sequence `B` and every remote path `r`, the
command `uploadFileBase64` builds is `echo '`, the Base64 text `E` of `B`,
`' | base64 -d > "`, `r` and `"`; every character of `E` is one of the 64 of
the alphabet or `=`, so `E` holds neither a single quote nor a `%`. -/
theorem uploadCommand_exact (B : QByteArray) (r : QString) :
    uploadCommand B r =
        "echo '".toList ++ fromUtf8 (toBase64 B) ++ "' | base64 -d > \"".toList ++ r ++
          "\"".toList ∧
      (∀ b ∈ toBase64 B, b ∈ alphabet_base64 ∨ b = padchar) ∧
      Char.ofNat 39 ∉ fromUtf8 (toBase64 B) ∧
      percent ∉ fromUtf8 (toBase64 B) := by
  have hq : Char.ofNat 39 ∉ fromUtf8 (toBase64 B) := by
    intro hm
    obtain ⟨b, hb, e⟩ := List.mem_map.mp hm
    exact (base64_char_plain b (toBase64_chars B b hb)).2 e
  have hp : percent ∉ fromUtf8 (toBase64 B) := by
    intro hm
    obtain ⟨b, hb, e⟩ := List.mem_map.mp hm
    exact (base64_char_plain b (toBase64_chars B b hb)).1 e
  refine ⟨?_, toBase64_chars B, hq, hp⟩
  show arg r (arg (fromUtf8 (toBase64 B)) "echo '%1' | base64 -d > \"%2\"".toList) = _
  rw [arg_payload, arg_remotePath _ _ hp]

/-! ## Paths in commands -/

/-- Between double quotes, a path without special characters is added to
the word being read, character by character, and the quotation stays open. -/
theorem lex_double_plain (path : QString) (h : PlainPath path) (text : QString)
    (expands : Bool) (tokens : List ShellToken) :
    path.foldl lexStep
        { quoting := Quoting.double, escaped := false, current := some (text, expands),
          tokens := tokens } =
      { quoting := Quoting.double, escaped := false, current := some (text ++ path, expands),
        tokens := tokens } := by
  induction path generalizing text with
  | nil => simp
  | cons c path ih =>
    obtain ⟨h1, h2, h3, h4⟩ := h c (by simp)
    have hrest : PlainPath path := fun x hx => h x (by simp [hx])
    rw [List.foldl_cons]
    have hstep : lexStep
        { quoting := Quoting.double, escaped := false, current := some (text, expands),
          tokens := tokens } c =
        { quoting := Quoting.double, escaped := false, current := some (text ++ [c], expands),
          tokens := tokens } := by
      simp [lexStep, pushChar, h1, h2, h3, h4]
    rw [hstep, ih hrest]
    simp

theorem renameCommand_eq (oldPath newPath : QString) :
    renameCommand oldPath newPath =
      "mv \"".toList ++ oldPath ++ "\" \"".toList ++ newPath ++ "\"".toList := by
  simp [renameCommand, arg2, argPieces, argScan, lowest, markerNumbers, percent, localeMark,
    digitValue]

theorem shellWords_listCommand (path : QString) (h : PlainPath path) :
    shellWords (listCommand path) =
      some [ShellToken.word "ls".toList false, ShellToken.word "-p".toList false,
        ShellToken.word path false] := by
  have pre : "ls -p \"".toList.foldl lexStep LexState.start =
      { quoting := Quoting.double, escaped := false, current := some ([], false),
        tokens := [ShellToken.word "ls".toList false, ShellToken.word "-p".toList false] } := by
    decide
  unfold shellWords listCommand
  rw [List.foldl_append, List.foldl_append, pre, lex_double_plain path h]
  simp [lexStep, endWord, doubleQuote, backslash]

theorem shellWords_fetchCommand (path : QString) (h : PlainPath path) :
    shellWords (fetchCommand path) =
      some [ShellToken.word "base64".toList false, ShellToken.word path false] := by
  have pre : "base64 \"".toList.foldl lexStep LexState.start =
      { quoting := Quoting.double, escaped := false, current := some ([], false),
        tokens := [ShellToken.word "base64".toList false] } := by
    decide
  unfold shellWords fetchCommand
  rw [List.foldl_append, List.foldl_append, pre, lex_double_plain path h]
  simp [lexStep, endWord, doubleQuote, backslash]

theorem shellWords_renameCommand (oldPath newPath : QString) (ho : PlainPath oldPath)
    (hn : PlainPath newPath) :
    shellWords (renameCommand oldPath newPath) =
      some [ShellToken.word "mv".toList false, ShellToken.word oldPath false,
        ShellToken.word newPath false] := by
  have pre : "mv \"".toList.foldl lexStep LexState.start =
      { quoting := Quoting.double, escaped := false, current := some ([], false),
        tokens := [ShellToken.word "mv".toList false] } := by
    decide
  have mid : "\" \"".toList.foldl lexStep
      { quoting := Quoting.double, escaped := false, current := some ([] ++ oldPath, false),
        tokens := [ShellToken.word "mv".toList false] } =
      { quoting := Quoting.double, escaped := false, current := some ([], false),
        tokens := [ShellToken.word "mv".toList false, ShellToken.word oldPath false] } := by
    simp [lexStep, endWord, startWord, doubleQuote, backslash, singleQuote]
  unfold shellWords
  rw [renameCommand_eq, List.foldl_append, List.foldl_append, List.foldl_append,
    List.foldl_append, pre, lex_double_plain oldPath ho, mid, lex_double_plain newPath hn]
  simp [lexStep, endWord, doubleQuote, backslash]

/-- The channel `getFileBase64` reads from is the one of its fetching command. -/
theorem getFileBase64_channel (ssh : SSHSession Nat) (path : QString) (hs : ssh.session = true)
    (ha : (ssh.channel (fetchCommand path)).allocated = true)
    (ho : (ssh.channel (fetchCommand path)).opened = true)
    (he : (ssh.channel (fetchCommand path)).execOk = true) :
    (getFileBase64 ssh path).output = fromBase64 (captured (ssh.channel (fetchCommand path))) := by
  unfold fetchCommand at ha ho he ⊢
  simp only [getFileBase64, hs, ha, ho, he, Bool.not_true, Bool.false_eq_true, if_false]

/-- C17 fails on the code: a file named `x";id;"` is listed in `.` and
stored with the full path `./x";id;"`; on Preview `getFileBase64` builds the
command `base64 "./x";id;""` (a session that answers this one command returns
its bytes), which the shell reads as `base64 ./x`, a separator, the command
`id`, a separator and an empty word: the name has closed the double quotes. So
it is for the listing and the renaming command; a path holding `$` stays one
word but is expanded. -/
theorem quote_in_path_leaves_operand :
    (refreshDirectory (sessionReading ["x\";id;\"\n".toList]) ".".toList
        { model := [], currentPath := ".".toList }).model =
        [{ text := "x\";id;\"".toList, userRole := "./x\";id;\"".toList }] ∧
      (previewItem
        { session := true,
          channel := fun cmd =>
            { allocated := true, opened := true, execOk := true,
              reads := if cmd = "base64 \"./x\";id;\"\"".toList then [[83, 71, 107, 61]] else [] } }
        { text := "x\";id;\"".toList, userRole := "./x\";id;\"".toList }).output = [72, 105] ∧
      shellWords (fetchCommand "./x\";id;\"".toList) =
        some [ShellToken.word "base64".toList false, ShellToken.word "./x".toList false,
          ShellToken.operator (Char.ofNat 59), ShellToken.word "id".toList false,
          ShellToken.operator (Char.ofNat 59), ShellToken.word [] false] ∧
      shellWords (listCommand "a\"; id; \"".toList) =
        some [ShellToken.word "ls".toList false, ShellToken.word "-p".toList false,
          ShellToken.word "a".toList false, ShellToken.operator (Char.ofNat 59),
          ShellToken.word "id".toList false, ShellToken.operator (Char.ofNat 59),
          ShellToken.word [] false] ∧
      wordStructure (listCommand "a\"; id; \"".toList) ≠ wordStructure (listCommand "a".toList) ∧
      wordStructure (fetchCommand "a\"; id; \"".toList) ≠ wordStructure (fetchCommand "a".toList) ∧
      wordStructure (renameCommand "a\"; id; \"".toList "b".toList) ≠
        wordStructure (renameCommand "a".toList "b".toList) ∧
      wordStructure (listCommand "$(id)".toList) ≠ wordStructure (listCommand "a".toList) := by
  decide

/-- What the quoting does achieve: for all remote paths that hold none of
the characters `"`, `$`, backtick and backslash, the commands built for
listing, fetching and renaming keep each path inside one quoted operand: the
shell reads `ls`, `-p` and the path; `base64` and the path; `mv`, the old and
the new path; so for any two such paths the commands have the same word
structure. -/
theorem plain_path_stays_quoted (p q oldPath newPath : QString) (hp : PlainPath p)
    (hq : PlainPath q) (ho : PlainPath oldPath) (hn : PlainPath newPath) :
    shellWords (listCommand p) =
        some [ShellToken.word "ls".toList false, ShellToken.word "-p".toList false,
          ShellToken.word p false] ∧
      shellWords (fetchCommand p) =
        some [ShellToken.word "base64".toList false, ShellToken.word p false] ∧
      shellWords (renameCommand oldPath newPath) =
        some [ShellToken.word "mv".toList false, ShellToken.word oldPath false,
          ShellToken.word newPath false] ∧
      wordStructure (listCommand p) = wordStructure (listCommand q) ∧
      wordStructure (fetchCommand p) = wordStructure (fetchCommand q) ∧
      wordStructure (renameCommand p oldPath) = wordStructure (renameCommand q newPath) := by
  refine ⟨shellWords_listCommand p hp, shellWords_fetchCommand p hp,
    shellWords_renameCommand oldPath newPath ho hn, ?_, ?_, ?_⟩
  · simp [wordStructure, shellWords_listCommand p hp, shellWords_listCommand q hq, tokenShape]
  · simp [wordStructure, shellWords_fetchCommand p hp, shellWords_fetchCommand q hq, tokenShape]
  · simp [wordStructure, shellWords_renameCommand p oldPath hp ho,
      shellWords_renameCommand q newPath hq hn, tokenShape]

/-- When no menu action has the text `name`, `removeQuickAction` changes nothing. -/
theorem removeQuickAction_absent (name : QString) (r : Registry)
    (h : ∀ act ∈ r.actions, act.text ≠ name) : removeQuickAction name r = r := by
  have hnone : ∀ actions : List Action, (∀ act ∈ actions, act.text ≠ name) →
      removeFirstAction name actions = none := by
    intro actions
    induction actions with
    | nil => intro _; rfl
    | cons act rest ih =>
      intro hall
      have ha : act.text ≠ name := hall act (by simp)
      simp [removeFirstAction, ha, ih (fun x hx => hall x (by simp [hx]))]
  simp [removeQuickAction, hnone r.actions h]

end SSHBrowser
